import Mathlib

/-!
Formal model of the adaptive ingestion engine: the concurrency controller
(`AdaptiveRateLimiter`), the bounded block-timestamp cache
(`BlockTimestampCache`), the timestamp-to-block binary search
(`TransactionIndexer.findBlockByTimestamp`), the round indexing state machine
(`RoundIndexer`), gap detection (`DatabaseIndexingOrchestrator`), and the
batch coalescer (`BatchProvider`).  Each definition is a shallow embedding of
the corresponding TypeScript function; stateful code is modelled by explicit
state passing and, for the rate limiter, by a step relation over its
interleaved events.  JavaScript numbers that stay integral are modelled by
`Nat`/`Int`; fractional arithmetic (ratios, backoff decay) by `ℚ`;
`BigInt` by `Int`.
-/

namespace Spec2Proof

/-! ## AdaptiveRateLimiter (src/timeboost/core/AdaptiveRateLimiter.ts) -/

/-- Error shape inspected by `isRateLimitError`: duck-typed objects carrying an
optional numeric `code`, `status`, and a `message` string. -/
structure ErrObj where
  code : Option Nat
  status : Option Nat
  message : Option String
deriving DecidableEq, Repr

/-- Substring test, modelling JavaScript `String.prototype.includes`. -/
def strIncludes (s pat : String) : Bool := decide (pat.data <:+: s.data)

/-- Lower-casing, modelling JavaScript `String.prototype.toLowerCase` (ASCII). -/
def strToLower (s : String) : String := s.map Char.toLower

/-- Model of `AdaptiveRateLimiter.isRateLimitError`: code/status 429, or a
message containing "429", "rate limit" or "too many requests". -/
def isRateLimitError (e : ErrObj) : Bool :=
  e.code == some 429 || e.status == some 429 ||
    (match e.message with
     | some m =>
         strIncludes m "429" || strIncludes (strToLower m) "rate limit" ||
           strIncludes (strToLower m) "too many requests"
     | none => false)

/-- Constructor options of `AdaptiveRateLimiter` (with their defaults in
`defaultRLConfig`). -/
structure RLConfig where
  initialConcurrency : Nat
  minConcurrency : Nat
  maxConcurrency : Nat
  increaseRatio : ℚ
  decreaseRatio : ℚ
  successWindowMs : Nat
  adjustmentIntervalMs : Nat
  targetSuccessRate : ℚ
  backoffMultiplier : ℚ
  maxBackoffMs : ℚ

/-- Default option values from the `AdaptiveRateLimiter` constructor. -/
def defaultRLConfig : RLConfig where
  initialConcurrency := 5
  minConcurrency := 1
  maxConcurrency := 50
  increaseRatio := 6 / 5
  decreaseRatio := 1 / 2
  successWindowMs := 30000
  adjustmentIntervalMs := 5000
  targetSuccessRate := 19 / 20
  backoffMultiplier := 2
  maxBackoffMs := 60000

/-- Mutable state of an `AdaptiveRateLimiter` instance.  `queueLen` abstracts
the pending-task queue by its length; wall-clock time is the explicit `now`
field. -/
structure RLState where
  queueLen : Nat
  activeRequests : Nat
  currentConcurrency : Nat
  targetConcurrency : Nat
  successCount : Nat
  failureCount : Nat
  rateLimitCount : Nat
  responseTimes : List Nat
  backoffDelay : ℚ
  now : Nat
  lastAdjustmentTime : Nat
  lastSuccessTime : Nat
deriving DecidableEq, Repr

/-- Initial state built by the constructor. -/
def initRLState (cfg : RLConfig) : RLState where
  queueLen := 0
  activeRequests := 0
  currentConcurrency := cfg.initialConcurrency
  targetConcurrency := cfg.initialConcurrency
  successCount := 0
  failureCount := 0
  rateLimitCount := 0
  responseTimes := []
  backoffDelay := 0
  now := 0
  lastAdjustmentTime := 0
  lastSuccessTime := 0

/-- Model of `handleRateLimit`: cut `currentConcurrency` (and the target) to
`max(minConcurrency, floor(currentConcurrency * decreaseRatio))` and set the
exponential backoff (1000 ms when the previous delay was zero, otherwise the
previous delay times `backoffMultiplier` capped at `maxBackoffMs`). -/
def handleRateLimit (cfg : RLConfig) (s : RLState) : RLState :=
  let newC : Nat :=
    (max (cfg.minConcurrency : ℤ) ⌊(s.currentConcurrency : ℚ) * cfg.decreaseRatio⌋).toNat
  let newBackoff : ℚ :=
    if s.backoffDelay = 0 then 1000
    else min (s.backoffDelay * cfg.backoffMultiplier) cfg.maxBackoffMs
  { s with
    targetConcurrency := newC
    currentConcurrency := newC
    backoffDelay := newBackoff }

/-- Model of pushing into `responseTimes` with the 100-sample cap (push, then
shift the oldest element out when the length exceeds 100). -/
def pushResponseTime (times : List Nat) (rt : Nat) : List Nat :=
  let times := times ++ [rt]
  if 100 < times.length then times.tail else times

/-- Success bookkeeping in `executeRequest`: bump `successCount`, refresh
`lastSuccessTime`, record the response time, and decay a pending backoff by
the factor 0.9 (floored). -/
def recordSuccess (s : RLState) (rt : Nat) : RLState :=
  { s with
    successCount := s.successCount + 1
    lastSuccessTime := s.now
    responseTimes := pushResponseTime s.responseTimes rt
    backoffDelay :=
      if 0 < s.backoffDelay then ((⌊s.backoffDelay * (9 / 10)⌋ : ℤ) : ℚ)
      else s.backoffDelay }

/-- Failure bookkeeping in `executeRequest`: a rate-limit error bumps
`rateLimitCount` and triggers `handleRateLimit`; any other error bumps
`failureCount`.  The response time is recorded either way. -/
def recordFailure (cfg : RLConfig) (s : RLState) (e : ErrObj) (rt : Nat) : RLState :=
  let s :=
    if isRateLimitError e then
      handleRateLimit cfg { s with rateLimitCount := s.rateLimitCount + 1 }
    else { s with failureCount := s.failureCount + 1 }
  { s with responseTimes := pushResponseTime s.responseTimes rt }

/-- Model of `executeRequest`.  The task function is modelled as an oracle
`fn` indexed by an invocation counter `k`; `executeRequest` performs exactly
one invocation (`fn k`), does its bookkeeping, decrements `activeRequests`,
and settles the caller's promise with the invocation's own outcome.  The
returned triple is (settlement, next invocation counter, new state). -/
def executeRequest {α : Type} (cfg : RLConfig) (fn : Nat → Except ErrObj α)
    (rt k : Nat) (s : RLState) : Except ErrObj α × Nat × RLState :=
  match fn k with
  | .ok v => (.ok v, k + 1, { recordSuccess s rt with activeRequests := s.activeRequests - 1 })
  | .error e =>
      (.error e, k + 1, { recordFailure cfg s e rt with activeRequests := s.activeRequests - 1 })

/-- Model of the periodic `adjustConcurrency` tick: when enough time and at
least 10 requests have been observed, adjust the target multiplicatively on
the measured success rate and move `currentConcurrency` toward the target by
at most one. -/
def adjustConcurrency (cfg : RLConfig) (s : RLState) : RLState :=
  if s.now - s.lastAdjustmentTime < cfg.adjustmentIntervalMs then s
  else
    let totalRequests := s.successCount + s.failureCount
    if totalRequests < 10 then s
    else
      let successRate : ℚ := (s.successCount : ℚ) / (totalRequests : ℚ)
      let recentlySuccessful := s.now - s.lastSuccessTime < cfg.successWindowMs
      let target : Nat :=
        if recentlySuccessful ∧ cfg.targetSuccessRate ≤ successRate then
          (min (cfg.maxConcurrency : ℤ) ⌊(s.targetConcurrency : ℚ) * cfg.increaseRatio⌋).toNat
        else if successRate < cfg.targetSuccessRate * (9 / 10) then
          (max (cfg.minConcurrency : ℤ) ⌊(s.targetConcurrency : ℚ) * (9 / 10)⌋).toNat
        else s.targetConcurrency
      let current : Nat :=
        if s.currentConcurrency < target then min (s.currentConcurrency + 1) target
        else if target < s.currentConcurrency then max (s.currentConcurrency - 1) target
        else s.currentConcurrency
      { s with
        successCount := 0
        failureCount := 0
        rateLimitCount := 0
        lastAdjustmentTime := s.now
        targetConcurrency := target
        currentConcurrency := current }

instance {ε α : Type} [DecidableEq ε] [DecidableEq α] : DecidableEq (Except ε α) := fun a b =>
  match a, b with
  | .ok x, .ok y =>
      if h : x = y then .isTrue (by rw [h]) else .isFalse (by simp [h])
  | .error x, .error y =>
      if h : x = y then .isTrue (by rw [h]) else .isFalse (by simp [h])
  | .ok _, .error _ => .isFalse (by simp)
  | .error _, .ok _ => .isFalse (by simp)

/-- Interleaved events of an `AdaptiveRateLimiter` run: a call to `execute`
enqueues; `processQueue` dispatches a task only while `activeRequests` is
below `currentConcurrency`; a dispatched task completes with an outcome;
`processQueue` decays a positive backoff by 1000 ms per pass; the periodic
timer fires `adjustConcurrency`; and wall-clock time passes. -/
inductive RLEvent where
  | enqueue
  | dispatch
  | complete (outcome : Except ErrObj Unit) (responseTime : Nat)
  | backoffTick
  | adjustTick
  | timePasses (dt : Nat)
deriving DecidableEq, Repr

/-- One step of the rate limiter's event semantics; `none` when the event is
not enabled in the given state. -/
def step (cfg : RLConfig) (s : RLState) : RLEvent → Option RLState
  | .enqueue => some { s with queueLen := s.queueLen + 1 }
  | .dispatch =>
      if 0 < s.queueLen ∧ s.activeRequests < s.currentConcurrency then
        some { s with queueLen := s.queueLen - 1, activeRequests := s.activeRequests + 1 }
      else none
  | .complete outcome rt =>
      if 0 < s.activeRequests then
        some (executeRequest cfg (fun _ => outcome) rt 0 s).2.2
      else none
  | .backoffTick =>
      if 0 < s.backoffDelay then
        some { s with backoffDelay := max 0 (s.backoffDelay - 1000) }
      else none
  | .adjustTick => some (adjustConcurrency cfg s)
  | .timePasses dt => some { s with now := s.now + dt }

/-- Run a list of events from a state, failing if any event is not enabled. -/
def runTrace (cfg : RLConfig) (s : RLState) : List RLEvent → Option RLState
  | [] => some s
  | e :: es =>
      match step cfg s e with
      | some s' => runTrace cfg s' es
      | none => none

/-- Model of `getBatchSize`: a batch-size suggestion derived from the current
concurrency (higher concurrency suggests smaller batches). -/
def getBatchSize (s : RLState) : Nat :=
  if 30 ≤ s.currentConcurrency then 10
  else if 20 ≤ s.currentConcurrency then 20
  else if 10 ≤ s.currentConcurrency then 50
  else 100

/-! ### Theorems about the rate limiter -/

/-- A bare HTTP-429 error object, classified as a rate limit. -/
def rateLimit429 : ErrObj := { code := some 429, status := none, message := none }

/-- Five tasks enqueued and dispatched at concurrency 5, then one fails with a
rate limit, cutting the limit to 2 while 4 tasks are still in flight. -/
def c1Events : List RLEvent :=
  [.enqueue, .enqueue, .enqueue, .enqueue, .enqueue,
   .dispatch, .dispatch, .dispatch, .dispatch, .dispatch,
   .complete (.error rateLimit429) 10]

/-- The backoff delay exactly as claim C2 words it: 1000 ms on the first
rate-limit, otherwise the previous delay multiplied by `backoffMultiplier`
capped at `maxBackoffMs`.  Stated from the claim's words for comparison
against `handleRateLimit`. -/
def claimedBackoffAfterRateLimit (isFirstRateLimit : Bool)
    (previousDelay multiplier cap : ℚ) : ℚ :=
  if isFirstRateLimit then 1000 else min (previousDelay * multiplier) cap

/-- First rate-limit, full decay of the 1000 ms backoff by one `processQueue`
pass, then a second task is dispatched (whose failure will be the second
rate-limit, hitting `handleRateLimit` with a previous delay of zero). -/
def c2EventsPrefix : List RLEvent :=
  [.enqueue, .dispatch, .complete (.error rateLimit429) 10, .backoffTick,
   .enqueue, .dispatch]

/-- The `c2EventsPrefix` trace extended by the second rate-limit failure. -/
def c2Events : List RLEvent :=
  c2EventsPrefix ++ [.complete (.error rateLimit429) 10]

/-- Lemma: `executeRequest` always decrements `activeRequests` and never
touches the queue length. -/
theorem executeRequest_activeRequests {α : Type} (cfg : RLConfig)
    (fn : Nat → Except ErrObj α) (rt k : Nat) (s : RLState) :
    ((executeRequest cfg fn rt k s).2.2).activeRequests = s.activeRequests - 1 := by
  unfold executeRequest
  cases fn k <;> simp

/-- Lemma: the periodic adjustment never changes the in-flight counter. -/
theorem adjustConcurrency_activeRequests (cfg : RLConfig) (s : RLState) :
    (adjustConcurrency cfg s).activeRequests = s.activeRequests := by
  simp only [adjustConcurrency]
  split_ifs <;> rfl

/-- C1 (counterexample): running `c1Events` from the default configuration is
a legal interleaving (every event is enabled), yet the final state has 4 tasks
still in flight with the current concurrency limit cut to 2 — the number of
simultaneously-executing tasks exceeds the controller's current limit at the
instant a rate-limit failure reduces it. -/
theorem concurrency_never_exceeds_limit_counterexample :
    (runTrace defaultRLConfig (initRLState defaultRLConfig) c1Events).map
        (fun s => (decide (s.activeRequests ≤ s.currentConcurrency),
          s.activeRequests, s.currentConcurrency)) = some (false, 4, 2) := by
  norm_num [runTrace, step, executeRequest, recordFailure, recordSuccess, handleRateLimit,
    isRateLimitError, pushResponseTime, initRLState, defaultRLConfig, adjustConcurrency,
    c1Events, rateLimit429, strIncludes]
  decide

/-- C1 (amended): a task is dispatched only while the in-flight count is
strictly below the current limit, so immediately after every dispatch the
in-flight count is at most `currentConcurrency`; whenever the in-flight count
is at or above the limit it can only decrease; and every step that does not
reduce the limit preserves the `activeRequests ≤ currentConcurrency` bound.
(The unamended invariant fails only at the instant a rate-limit cut — or a
periodic downward adjustment — lowers the limit below the tasks already in
flight; those tasks are never aborted.) -/
theorem dispatch_respects_concurrency_limit (cfg : RLConfig) (s s' : RLState)
    (e : RLEvent) (h : step cfg s e = some s') :
    (e = RLEvent.dispatch → s'.activeRequests ≤ s'.currentConcurrency) ∧
      (s.currentConcurrency ≤ s.activeRequests →
        s'.activeRequests ≤ s.activeRequests) ∧
      (s.activeRequests ≤ s.currentConcurrency →
        s.currentConcurrency ≤ s'.currentConcurrency →
        s'.activeRequests ≤ s'.currentConcurrency) := by
  cases e with
  | enqueue =>
      simp only [step, Option.some.injEq] at h
      subst h
      refine ⟨by simp, by simp, by simp⟩
  | dispatch =>
      simp only [step] at h
      split_ifs at h with hg
      · simp only [Option.some.injEq] at h
        subst h
        exact ⟨fun _ => hg.2, fun hc => absurd hg.2 (by omega), fun _ _ => hg.2⟩
  | complete outcome rt =>
      simp only [step] at h
      split_ifs at h with hg
      · simp only [Option.some.injEq] at h
        subst h
        rw [executeRequest_activeRequests]
        exact ⟨by simp, fun _ => by omega, fun h1 h2 => by omega⟩
  | backoffTick =>
      simp only [step] at h
      split_ifs at h with hg
      · simp only [Option.some.injEq] at h
        subst h
        refine ⟨by simp, by simp, by simp⟩
  | adjustTick =>
      simp only [step, Option.some.injEq] at h
      subst h
      rw [adjustConcurrency_activeRequests]
      exact ⟨by simp, fun _ => le_refl _, fun h1 h2 => le_trans h1 h2⟩
  | timePasses dt =>
      simp only [step, Option.some.injEq] at h
      subst h
      refine ⟨by simp, by simp, by simp⟩

/-- Concrete instantiation of the amended C1 theorem: dispatching the single
queued task from the fresh default state. -/
theorem dispatch_respects_concurrency_limit_witness :
    (RLEvent.dispatch = RLEvent.dispatch →
        ({ initRLState defaultRLConfig with queueLen := 0, activeRequests := 1 } : RLState).activeRequests ≤
          ({ initRLState defaultRLConfig with queueLen := 0, activeRequests := 1 } : RLState).currentConcurrency) ∧
      (({ initRLState defaultRLConfig with queueLen := 1 } : RLState).currentConcurrency ≤
          ({ initRLState defaultRLConfig with queueLen := 1 } : RLState).activeRequests →
        ({ initRLState defaultRLConfig with queueLen := 0, activeRequests := 1 } : RLState).activeRequests ≤
          ({ initRLState defaultRLConfig with queueLen := 1 } : RLState).activeRequests) ∧
      (({ initRLState defaultRLConfig with queueLen := 1 } : RLState).activeRequests ≤
          ({ initRLState defaultRLConfig with queueLen := 1 } : RLState).currentConcurrency →
        ({ initRLState defaultRLConfig with queueLen := 1 } : RLState).currentConcurrency ≤
          ({ initRLState defaultRLConfig with queueLen := 0, activeRequests := 1 } : RLState).currentConcurrency →
        ({ initRLState defaultRLConfig with queueLen := 0, activeRequests := 1 } : RLState).activeRequests ≤
          ({ initRLState defaultRLConfig with queueLen := 0, activeRequests := 1 } : RLState).currentConcurrency) :=
  dispatch_respects_concurrency_limit defaultRLConfig
    { initRLState defaultRLConfig with queueLen := 1 }
    { initRLState defaultRLConfig with queueLen := 0, activeRequests := 1 }
    RLEvent.dispatch (by rfl)

/-- C2 (amended): `handleRateLimit` sets the concurrency to
`max(minConcurrency, floor(C_before * decreaseRatio))`, and sets the backoff
delay to 1000 ms whenever the previous delay is zero (in particular on the
first rate-limit) and to the previous delay times `backoffMultiplier` capped
at `maxBackoffMs` otherwise; with a multiplier and cap of at least 1 the new
delay is strictly positive. -/
theorem handleRateLimit_cut_and_backoff (cfg : RLConfig) (s : RLState)
    (hmult : 1 ≤ cfg.backoffMultiplier) (hmax : 1 ≤ cfg.maxBackoffMs)
    (hprev : 0 ≤ s.backoffDelay) :
    (handleRateLimit cfg s).currentConcurrency =
        max cfg.minConcurrency
          (Int.toNat ⌊(s.currentConcurrency : ℚ) * cfg.decreaseRatio⌋) ∧
      (handleRateLimit cfg s).backoffDelay =
        (if s.backoffDelay = 0 then (1000 : ℚ)
         else min (s.backoffDelay * cfg.backoffMultiplier) cfg.maxBackoffMs) ∧
      0 < (handleRateLimit cfg s).backoffDelay := by
  refine ⟨?_, rfl, ?_⟩
  · show (max (cfg.minConcurrency : ℤ) ⌊(s.currentConcurrency : ℚ) * cfg.decreaseRatio⌋).toNat = _
    generalize ⌊(s.currentConcurrency : ℚ) * cfg.decreaseRatio⌋ = n
    omega
  · show (0 : ℚ) < if s.backoffDelay = 0 then 1000
      else min (s.backoffDelay * cfg.backoffMultiplier) cfg.maxBackoffMs
    split_ifs with h0
    · norm_num
    · have hb : 0 < s.backoffDelay := lt_of_le_of_ne hprev (Ne.symm h0)
      exact lt_min (mul_pos hb (lt_of_lt_of_le one_pos hmult))
        (lt_of_lt_of_le one_pos hmax)

/-- Concrete instantiation of the amended C2 theorem at the default
configuration and the fresh initial state (concurrency 5, no backoff). -/
theorem handleRateLimit_cut_and_backoff_witness :
    (handleRateLimit defaultRLConfig (initRLState defaultRLConfig)).currentConcurrency =
        max defaultRLConfig.minConcurrency
          (Int.toNat ⌊((initRLState defaultRLConfig).currentConcurrency : ℚ) *
            defaultRLConfig.decreaseRatio⌋) ∧
      (handleRateLimit defaultRLConfig (initRLState defaultRLConfig)).backoffDelay =
        (if (initRLState defaultRLConfig).backoffDelay = 0 then (1000 : ℚ)
         else min ((initRLState defaultRLConfig).backoffDelay *
            defaultRLConfig.backoffMultiplier) defaultRLConfig.maxBackoffMs) ∧
      0 < (handleRateLimit defaultRLConfig (initRLState defaultRLConfig)).backoffDelay :=
  handleRateLimit_cut_and_backoff defaultRLConfig (initRLState defaultRLConfig)
    (by norm_num [defaultRLConfig]) (by norm_num [defaultRLConfig])
    (by norm_num [initRLState, defaultRLConfig])

/-- C2 (counterexample): after a first rate-limit whose 1000 ms backoff has
fully decayed back to zero, a second rate-limit failure is applied by the
code with a fresh 1000 ms backoff, while the claim's formula for a non-first
rate-limit (previous delay times multiplier, capped) yields 0 — which is also
not strictly positive.  The first trace exhibits the pre-state (one
rate-limit seen, backoff zero); the second extends it by the second
rate-limit failure. -/
theorem rateLimit_backoff_formula_counterexample :
    (runTrace defaultRLConfig (initRLState defaultRLConfig) c2EventsPrefix).map
        (fun s => (s.rateLimitCount, s.backoffDelay)) = some (1, 0) ∧
      (runTrace defaultRLConfig (initRLState defaultRLConfig) c2Events).map
        (fun s => (s.rateLimitCount, s.backoffDelay)) = some (2, 1000) ∧
      claimedBackoffAfterRateLimit false 0 defaultRLConfig.backoffMultiplier
        defaultRLConfig.maxBackoffMs = 0 := by
  refine ⟨?_, ?_, ?_⟩ <;>
    · norm_num [runTrace, step, executeRequest, recordFailure, recordSuccess,
        handleRateLimit, isRateLimitError, pushResponseTime, initRLState,
        defaultRLConfig, adjustConcurrency, c2Events, c2EventsPrefix, rateLimit429,
        strIncludes, claimedBackoffAfterRateLimit]
      try decide

/-- C9: for every task handed to the controller, `executeRequest` settles the
caller's promise with exactly the task's own outcome — in particular a thrown
error is propagated unchanged, whether or not it is classified as a rate
limit — and the task function is invoked exactly once (the invocation counter
advances from `k` to `k + 1` and the settlement is the outcome of invocation
`k`; there is no retry and no swallowing). -/
theorem executeRequest_propagates_and_calls_once {α : Type} (cfg : RLConfig)
    (fn : Nat → Except ErrObj α) (rt k : Nat) (s : RLState) :
    (executeRequest cfg fn rt k s).1 = fn k ∧
      (executeRequest cfg fn rt k s).2.1 = k + 1 := by
  unfold executeRequest
  cases fn k <;> simp

/-- C10: `getBatchSize` only ever returns 10, 20, 50 or 100, and it is
non-increasing in the current concurrency. -/
theorem getBatchSize_values_and_antitone (s t : RLState)
    (h : t.currentConcurrency ≤ s.currentConcurrency) :
    (getBatchSize s = 10 ∨ getBatchSize s = 20 ∨ getBatchSize s = 50 ∨
        getBatchSize s = 100) ∧
      getBatchSize s ≤ getBatchSize t := by
  unfold getBatchSize
  split_ifs <;> omega

/-- Concrete instantiation of the C10 theorem at concurrencies 25 and 5. -/
theorem getBatchSize_values_and_antitone_witness :
    (getBatchSize { initRLState defaultRLConfig with currentConcurrency := 25 } = 10 ∨
        getBatchSize { initRLState defaultRLConfig with currentConcurrency := 25 } = 20 ∨
        getBatchSize { initRLState defaultRLConfig with currentConcurrency := 25 } = 50 ∨
        getBatchSize { initRLState defaultRLConfig with currentConcurrency := 25 } = 100) ∧
      getBatchSize { initRLState defaultRLConfig with currentConcurrency := 25 } ≤
        getBatchSize (initRLState defaultRLConfig) :=
  getBatchSize_values_and_antitone
    { initRLState defaultRLConfig with currentConcurrency := 25 }
    (initRLState defaultRLConfig) (by decide)

/-! ## BlockTimestampCache (bounded cache with smallest-block-first eviction) -/

/-- Lookup in an insertion-ordered association list, modelling `Map.get`. -/
def mapLookup {κ β : Type} [DecidableEq κ] (l : List (κ × β)) (k : κ) : Option β :=
  match l.find? (fun p => p.1 == k) with
  | some p => some p.2
  | none => none

/-- Insertion into an insertion-ordered association list, modelling `Map.set`:
an existing key is overwritten in place, a new key is appended at the end. -/
def mapSet {κ β : Type} [DecidableEq κ] (l : List (κ × β)) (k : κ) (v : β) : List (κ × β) :=
  match l with
  | [] => [(k, v)]
  | p :: rest => if p.1 = k then (k, v) :: rest else p :: mapSet rest k v

/-- Removal from an association list, modelling `Map.delete`. -/
def mapDelete {κ β : Type} [DecidableEq κ] (l : List (κ × β)) (k : κ) : List (κ × β) :=
  l.filter (fun p => p.1 ≠ k)

/-- Smallest key of an association list, modelling
`Math.min(...Array.from(map.keys()))` (0 for the empty map, which the code
never hits because eviction only runs on a full cache). -/
def minKey {β : Type} (l : List (Nat × β)) : Nat :=
  match l.map Prod.fst with
  | [] => 0
  | k :: ks => ks.foldl min k

/-- State of a `BlockTimestampCache`: the block→timestamp map, the reverse
timestamp→blocks index, the capacity, and the sequential-hint store. -/
structure BlockTimestampCache where
  cache : List (Nat × Nat)
  timestampIndex : List (Nat × List Nat)
  maxCacheSize : Nat
  sequentialHints : List (String × Nat)
deriving DecidableEq, Repr

/-- A fresh cache of the given capacity. -/
def emptyCache (maxCacheSize : Nat) : BlockTimestampCache where
  cache := []
  timestampIndex := []
  maxCacheSize := maxCacheSize
  sequentialHints := []

/-- Model of `BlockTimestampCache.set`: when the cache is at capacity, first
evict the entry with the smallest block number (and scrub it from the reverse
index); then store the new entry and add the block to the (sorted) reverse
index bucket of its timestamp. -/
def BlockTimestampCache.set (c : BlockTimestampCache) (blockNumber timestamp : Nat) :
    BlockTimestampCache :=
  let c :=
    if c.maxCacheSize ≤ c.cache.length then
      let oldestBlock := minKey c.cache
      let oldestTimestamp := mapLookup c.cache oldestBlock
      let cache' := mapDelete c.cache oldestBlock
      let tsIndex :=
        match oldestTimestamp with
        | some ot =>
            let blocks := (mapLookup c.timestampIndex ot).getD []
            let filtered := blocks.filter (fun x => x ≠ oldestBlock)
            if filtered = [] then mapDelete c.timestampIndex ot
            else mapSet c.timestampIndex ot filtered
        | none => c.timestampIndex
      { c with cache := cache', timestampIndex := tsIndex }
    else c
  let c := { c with cache := mapSet c.cache blockNumber timestamp }
  let blocks := (mapLookup c.timestampIndex timestamp).getD []
  if blockNumber ∈ blocks then c
  else
    { c with
      timestampIndex :=
        mapSet c.timestampIndex timestamp
          ((blocks ++ [blockNumber]).mergeSort (fun a b => decide (a ≤ b))) }

/-- Model of `BlockTimestampCache.get`. -/
def BlockTimestampCache.get (c : BlockTimestampCache) (blockNumber : Nat) : Option Nat :=
  mapLookup c.cache blockNumber

/-- Inserting a list of entries one by one. -/
def insertAll (c : BlockTimestampCache) (entries : List (Nat × Nat)) : BlockTimestampCache :=
  entries.foldl (fun c e => c.set e.1 e.2) c

/-! ### Association-list and minKey lemmas -/

theorem mapSet_of_not_mem {β : Type} (l : List (Nat × β)) (k : Nat) (v : β)
    (h : k ∉ l.map Prod.fst) : mapSet l k v = l ++ [(k, v)] := by
  induction l with
  | nil => rfl
  | cons p rest ih =>
      simp only [List.map_cons, List.mem_cons, not_or] at h
      simp only [mapSet]
      rw [if_neg (fun hh => h.1 hh.symm), ih h.2]
      rfl

theorem mapSet_length_le {β : Type} (l : List (Nat × β)) (k : Nat) (v : β) :
    (mapSet l k v).length ≤ l.length + 1 := by
  induction l with
  | nil => simp [mapSet]
  | cons p rest ih =>
      simp only [mapSet]
      split_ifs
      · simp
      · simpa using ih

theorem mapDelete_keys {β : Type} (l : List (Nat × β)) (k : Nat) :
    (mapDelete l k).map Prod.fst = (l.map Prod.fst).filter (fun x => x ≠ k) := by
  induction l with
  | nil => rfl
  | cons p rest ih =>
      simp only [mapDelete, List.filter_cons, List.map_cons] at *
      split_ifs <;> simp_all [mapDelete]

theorem mapDelete_length_of_nodup {β : Type} (l : List (Nat × β)) (k : Nat)
    (hnd : (l.map Prod.fst).Nodup) (hk : k ∈ l.map Prod.fst) :
    (mapDelete l k).length + 1 = l.length := by
  induction l with
  | nil => simp at hk
  | cons p rest ih =>
      simp only [List.map_cons, List.nodup_cons] at hnd
      simp only [List.map_cons, List.mem_cons] at hk
      by_cases hpk : p.1 = k
      · have hrest : mapDelete rest k = rest := by
          apply List.filter_eq_self.mpr
          intro q hq
          have hqk : q.1 ≠ k := by
            intro hq1
            exact hnd.1 (by rw [hpk]; exact hq1 ▸ List.mem_map_of_mem Prod.fst hq)
          simp [hqk]
        simp only [mapDelete, List.filter_cons] at hrest ⊢
        rw [if_neg (by simp [hpk]), hrest]
        simp
      · have hk' : k ∈ rest.map Prod.fst := by
          rcases hk with h | h
          · exact absurd h.symm hpk
          · exact h
        simp only [mapDelete, List.filter_cons] at ih ⊢
        rw [if_pos (by simp [hpk])]
        simpa using ih hnd.2 hk'

theorem foldl_min_le (ks : List Nat) (k : Nat) :
    ks.foldl min k ≤ k ∧ ∀ x ∈ ks, ks.foldl min k ≤ x := by
  induction ks generalizing k with
  | nil => simp
  | cons a rest ih =>
      have h := ih (min k a)
      refine ⟨le_trans h.1 (min_le_left _ _), ?_⟩
      intro x hx
      rcases List.mem_cons.mp hx with rfl | hx
      · exact le_trans h.1 (min_le_right _ _)
      · exact h.2 x hx

theorem foldl_min_mem (ks : List Nat) (k : Nat) :
    ks.foldl min k = k ∨ ks.foldl min k ∈ ks := by
  induction ks generalizing k with
  | nil => simp
  | cons a rest ih =>
      rcases ih (min k a) with h | h
      · rcases min_choice k a with hm | hm
        · exact Or.inl (by rw [List.foldl_cons, h, hm])
        · refine Or.inr ?_
          rw [List.foldl_cons, h, hm]
          exact List.mem_cons_self a rest
      · exact Or.inr (List.mem_cons_of_mem a h)

theorem minKey_mem {β : Type} (l : List (Nat × β)) (h : l ≠ []) :
    minKey l ∈ l.map Prod.fst := by
  cases l with
  | nil => exact absurd rfl h
  | cons p rest =>
      have hdef : minKey (p :: rest) = (rest.map Prod.fst).foldl min p.1 := rfl
      rcases foldl_min_mem (rest.map Prod.fst) p.1 with hm | hm
      · rw [List.map_cons, hdef, hm]
        exact List.mem_cons_self _ _
      · rw [List.map_cons, hdef]
        exact List.mem_cons_of_mem _ hm

theorem minKey_le {β : Type} (l : List (Nat × β)) (x : Nat) (hx : x ∈ l.map Prod.fst) :
    minKey l ≤ x := by
  cases l with
  | nil => simp at hx
  | cons p rest =>
      have hdef : minKey (p :: rest) = (rest.map Prod.fst).foldl min p.1 := rfl
      rw [List.map_cons, List.mem_cons] at hx
      rw [hdef]
      rcases hx with rfl | h
      · exact (foldl_min_le (rest.map Prod.fst) p.1).1
      · exact (foldl_min_le (rest.map Prod.fst) p.1).2 x h

theorem length_filter_lt_of_exists {α : Type} (p : α → Bool) (l : List α) (x : α)
    (hx : x ∈ l) (hpx : p x = false) : (l.filter p).length < l.length := by
  induction l with
  | nil => simp at hx
  | cons a rest ih =>
      rcases List.mem_cons.mp hx with rfl | hx
      · simp only [List.filter_cons, hpx, if_neg, Bool.false_eq_true, not_false_eq_true,
          List.length_cons]
        exact Nat.lt_succ_of_le (List.length_filter_le p rest)
      · simp only [List.filter_cons, List.length_cons]
        split_ifs
        · simpa using ih hx
        · exact Nat.lt_succ_of_lt (ih hx)

/-! ### Structure of `BlockTimestampCache.set` -/

/-- The `cache` map after a `set`: evict the smallest key first when at
capacity, then insert. -/
theorem set_cache (c : BlockTimestampCache) (k v : Nat) :
    (c.set k v).cache =
      mapSet
        (if c.maxCacheSize ≤ c.cache.length then mapDelete c.cache (minKey c.cache)
         else c.cache) k v := by
  unfold BlockTimestampCache.set
  dsimp only
  split_ifs <;> rfl

/-- A `set` never changes the configured capacity. -/
theorem set_maxCacheSize (c : BlockTimestampCache) (k v : Nat) :
    (c.set k v).maxCacheSize = c.maxCacheSize := by
  unfold BlockTimestampCache.set
  dsimp only
  split_ifs <;> rfl

/-- Single-insertion capacity bound: a `set` on a cache within its (positive)
capacity stays within capacity. -/
theorem set_length_le (c : BlockTimestampCache) (k v : Nat) (hN : 1 ≤ c.maxCacheSize)
    (h : c.cache.length ≤ c.maxCacheSize) :
    (c.set k v).cache.length ≤ c.maxCacheSize := by
  rw [set_cache]
  split_ifs with hfull
  · have hne : c.cache ≠ [] := by
      intro h0
      rw [h0] at hfull
      simp at hfull
      omega
    have hmem := minKey_mem c.cache hne
    obtain ⟨q, hq, hq1⟩ := List.mem_map.mp hmem
    have hdel : (mapDelete c.cache (minKey c.cache)).length < c.cache.length := by
      apply length_filter_lt_of_exists _ _ q hq
      simp [hq1]
    have := mapSet_length_le (mapDelete c.cache (minKey c.cache)) k v
    omega
  · have := mapSet_length_le c.cache k v
    omega

/-- Filling a cache with fresh, pairwise-distinct keys while below capacity
appends the entries in order (and keeps the capacity). -/
theorem insertAll_cache (entries : List (Nat × Nat)) (c : BlockTimestampCache)
    (hflen : c.cache.length + entries.length ≤ c.maxCacheSize)
    (hdisj : ∀ k ∈ entries.map Prod.fst, k ∉ c.cache.map Prod.fst)
    (hnodup : (entries.map Prod.fst).Nodup) :
    (insertAll c entries).cache = c.cache ++ entries ∧
      (insertAll c entries).maxCacheSize = c.maxCacheSize := by
  induction entries generalizing c with
  | nil => simp [insertAll]
  | cons e rest ih =>
      simp only [List.map_cons, List.nodup_cons] at hnodup
      have hnotfull : ¬ (c.maxCacheSize ≤ c.cache.length) := by
        simp only [List.length_cons] at hflen
        omega
      have hfresh : e.1 ∉ c.cache.map Prod.fst := hdisj e.1 (by simp)
      have hc1 : (c.set e.1 e.2).cache = c.cache ++ [e] := by
        rw [set_cache, if_neg hnotfull, mapSet_of_not_mem _ _ _ hfresh]
      have hm1 : (c.set e.1 e.2).maxCacheSize = c.maxCacheSize := set_maxCacheSize c e.1 e.2
      have hrest := ih (c.set e.1 e.2)
        (by rw [hc1, hm1]; simp only [List.length_append, List.length_singleton]
            simp only [List.length_cons] at hflen; omega)
        (by intro x hx
            rw [hc1]
            simp only [List.map_append, List.mem_append, not_or]
            refine ⟨hdisj x (List.mem_cons_of_mem _ hx), ?_⟩
            simp only [List.map_singleton, List.mem_singleton]
            intro hxe
            exact hnodup.1 (hxe ▸ hx))
        hnodup.2
      simp only [insertAll, List.foldl_cons] at hrest ⊢
      rw [hrest.1, hrest.2, hc1, hm1]
      simp

/-- C5: inserting `N+1` entries with pairwise-distinct block numbers into an
initially empty `BlockTimestampCache` of capacity `N ≥ 1` first fills the
cache to exactly the first `N` entries; the `(N+1)`-th insertion leaves
exactly `N` entries and evicts precisely the entry whose block number is the
minimum of those present before it (which is a member of and a lower bound of
the present block numbers); and, in general, any single insertion into a
cache within capacity leaves it within capacity. -/
theorem blockTimestampCache_capacity_and_eviction (N : Nat)
    (entries : List (Nat × Nat)) (b t : Nat) (hN : 1 ≤ N) (hlen : entries.length = N)
    (hnodup : (entries.map Prod.fst ++ [b]).Nodup) :
    (insertAll (emptyCache N) entries).cache = entries ∧
      ((insertAll (emptyCache N) entries).set b t).cache.length = N ∧
      (∀ k, k ∈ ((insertAll (emptyCache N) entries).set b t).cache.map Prod.fst ↔
        ((k ∈ entries.map Prod.fst ∧ k ≠ minKey entries) ∨ k = b)) ∧
      minKey entries ∈ entries.map Prod.fst ∧
      (∀ x ∈ entries.map Prod.fst, minKey entries ≤ x) ∧
      (∀ (c : BlockTimestampCache) (k v : Nat), 1 ≤ c.maxCacheSize →
        c.cache.length ≤ c.maxCacheSize → (c.set k v).cache.length ≤ c.maxCacheSize) := by
  obtain ⟨hnd, -, hdis⟩ := List.nodup_append.mp hnodup
  have hb : b ∉ entries.map Prod.fst := fun hmem => hdis hmem (by simp)
  have hfill := insertAll_cache entries (emptyCache N)
    (by simp [emptyCache, hlen]) (by simp [emptyCache]) hnd
  have hCB : (insertAll (emptyCache N) entries).cache = entries := by
    simpa [emptyCache] using hfill.1
  have hCM : (insertAll (emptyCache N) entries).maxCacheSize = N := by
    simpa [emptyCache] using hfill.2
  have hne : entries ≠ [] := by
    intro h0
    rw [h0] at hlen
    simp at hlen
    omega
  have hminmem := minKey_mem entries hne
  have hbd : b ∉ (mapDelete entries (minKey entries)).map Prod.fst := by
    rw [mapDelete_keys]
    intro hmem
    exact hb (List.mem_of_mem_filter hmem)
  have hset : ((insertAll (emptyCache N) entries).set b t).cache =
      mapDelete entries (minKey entries) ++ [(b, t)] := by
    rw [set_cache, hCB, hCM, if_pos (by rw [hlen]), mapSet_of_not_mem _ _ _ hbd]
  refine ⟨hCB, ?_, ?_, hminmem, fun x hx => minKey_le entries x hx,
    fun c k v h1 h2 => set_length_le c k v h1 h2⟩
  · rw [hset]
    have hdl := mapDelete_length_of_nodup entries (minKey entries) hnd hminmem
    simp only [List.length_append, List.length_singleton]
    omega
  · intro k
    rw [hset]
    simp only [List.map_append, List.mem_append, List.map_singleton,
      List.mem_singleton, mapDelete_keys, List.mem_filter]
    simp

/-- Concrete instantiation of the C5 theorem: capacity 2, entries
`[(5,50), (3,30)]`, then inserting block 7 evicts block 3 (the smallest). -/
theorem blockTimestampCache_capacity_and_eviction_witness :
    (insertAll (emptyCache 2) [(5, 50), (3, 30)]).cache = [(5, 50), (3, 30)] ∧
      ((insertAll (emptyCache 2) [(5, 50), (3, 30)]).set 7 70).cache.length = 2 ∧
      (∀ k, k ∈ ((insertAll (emptyCache 2) [(5, 50), (3, 30)]).set 7 70).cache.map Prod.fst ↔
        ((k ∈ ([(5, 50), (3, 30)] : List (Nat × Nat)).map Prod.fst ∧
            k ≠ minKey [(5, 50), (3, 30)]) ∨ k = 7)) ∧
      minKey [(5, 50), (3, 30)] ∈ ([(5, 50), (3, 30)] : List (Nat × Nat)).map Prod.fst ∧
      (∀ x ∈ ([(5, 50), (3, 30)] : List (Nat × Nat)).map Prod.fst,
        minKey [(5, 50), (3, 30)] ≤ x) ∧
      (∀ (c : BlockTimestampCache) (k v : Nat), 1 ≤ c.maxCacheSize →
        c.cache.length ≤ c.maxCacheSize → (c.set k v).cache.length ≤ c.maxCacheSize) :=
  blockTimestampCache_capacity_and_eviction 2 [(5, 50), (3, 30)] 7 70
    (by decide) (by decide) (by decide)

/-! ## Gap detection (DatabaseIndexingOrchestrator.detectAndFillGaps) -/

/-- A gap record: the closed interval of round numbers between two indexed
rounds. -/
structure Gap where
  start : Int
  «end» : Int
deriving DecidableEq, Repr

/-- The scan loop of `detectAndFillGaps`: for each pair of consecutive round
numbers whose difference exceeds 1, emit `{start: current+1, end: next-1}`. -/
def gapsAux : List Int → List Gap
  | c :: n :: rest => (if 1 < n - c then [⟨c + 1, n - 1⟩] else []) ++ gapsAux (n :: rest)
  | _ => []

/-- Model of the gap computation in `detectAndFillGaps`: sort the indexed
round numbers ascending, return nothing for fewer than two rounds, otherwise
scan consecutive pairs. -/
def detectGaps (roundNumbers : List Int) : List Gap :=
  let sorted := roundNumbers.mergeSort (fun a b => decide (a ≤ b))
  if sorted.length < 2 then [] else gapsAux sorted

theorem gapsAux_mem (l : List Int) (g : Gap) :
    g ∈ gapsAux l ↔
      ∃ p ∈ l.zip l.tail, 1 < p.2 - p.1 ∧ g.start = p.1 + 1 ∧ g.«end» = p.2 - 1 := by
  induction l with
  | nil => simp [gapsAux]
  | cons c rest ih =>
      cases rest with
      | nil => simp [gapsAux]
      | cons n rest2 =>
          have hstep : gapsAux (c :: n :: rest2) =
              (if 1 < n - c then [⟨c + 1, n - 1⟩] else []) ++ gapsAux (n :: rest2) := rfl
          have hz : (c :: n :: rest2).zip (c :: n :: rest2).tail =
              (c, n) :: (n :: rest2).zip rest2 := rfl
          by_cases hd : 1 < n - c
          · rw [hstep, if_pos hd, hz, List.singleton_append, List.mem_cons]
            constructor
            · rintro (rfl | hin)
              · exact ⟨(c, n), List.mem_cons_self _ _, hd, rfl, rfl⟩
              · obtain ⟨p, hp, hgap⟩ := ih.mp hin
                exact ⟨p, List.mem_cons_of_mem _ hp, hgap⟩
            · rintro ⟨p, hp, hgap⟩
              rcases List.mem_cons.mp hp with rfl | hp
              · left
                obtain ⟨gs, ge⟩ := g
                simp only at hgap
                rw [hgap.2.1, hgap.2.2]
              · exact Or.inr (ih.mpr ⟨p, hp, hgap⟩)
          · rw [hstep, if_neg hd, List.nil_append, hz, ih]
            constructor
            · rintro ⟨p, hp, hgap⟩
              exact ⟨p, List.mem_cons_of_mem _ hp, hgap⟩
            · rintro ⟨p, hp, hgap⟩
              rcases List.mem_cons.mp hp with rfl | hp
              · exact absurd hgap.1 hd
              · exact ⟨p, hp, hgap⟩

/-- C6: a gap `g` is emitted iff some pair of consecutive rounds (in the
ascending sorted order of the indexed round numbers) differs by more than 1
and `g` is exactly the open interval between them — and nothing else is
emitted; on the indexed rounds `{1,2,5,6,9}` detection yields exactly
`[{3,4}, {7,8}]`. -/
theorem detectGaps_consecutive_pairs (roundNumbers : List Int) :
    (∀ g : Gap, g ∈ detectGaps roundNumbers ↔
      ∃ p ∈ (roundNumbers.mergeSort (fun a b => decide (a ≤ b))).zip
          (roundNumbers.mergeSort (fun a b => decide (a ≤ b))).tail,
        1 < p.2 - p.1 ∧ g.start = p.1 + 1 ∧ g.«end» = p.2 - 1) ∧
      detectGaps [1, 2, 5, 6, 9] = [⟨3, 4⟩, ⟨7, 8⟩] := by
  have hzip : ∀ (l : List Int), l.length < 2 → l.zip l.tail = [] := by
    intro l hl
    match l with
    | [] => rfl
    | [a] => rfl
    | a :: b :: r => simp at hl; omega
  constructor
  · intro g
    simp only [detectGaps]
    split_ifs with h
    · simp [hzip _ h]
    · exact gapsAux_mem _ g
  · have hs : List.mergeSort [1, 2, 5, 6, 9] (fun a b : Int => decide (a ≤ b)) =
        [1, 2, 5, 6, 9] :=
      List.mergeSort_of_sorted (by decide)
    simp only [detectGaps]
    rw [hs]
    decide

/-! ## BatchProvider.processBatch (batch coalescer response matching) -/

/-- A buffered batch request (its locally unique id and wire payload). -/
structure BatchReq where
  method : String
  params : List String
  id : Nat
deriving DecidableEq, Repr

/-- A JSON-RPC error object inside a batch response. -/
structure RpcErr where
  message : String
deriving DecidableEq, Repr

/-- One entry of the batch response array. -/
structure BatchResp where
  id : Nat
  result : Option String
  error : Option RpcErr
deriving DecidableEq, Repr

/-- How a buffered request's promise is settled by `processBatch`. -/
inductive Settlement where
  | resolved (result : Option String)
  | rejectedError (message : String)
  | rejectedTransport (e : ErrObj)
deriving DecidableEq, Repr

/-- Model of `new Map(responses.map(res => [res.id, res])).get(id)`: the last
response with the given id wins. -/
def respMap (responses : List BatchResp) (id : Nat) : Option BatchResp :=
  responses.reverse.find? (fun r => r.id == id)

/-- Model of `BatchProvider.processBatch` settling: on transport success each
request whose id is found resolves with the response's `result` (or rejects
with its error message); a request whose id is absent rejects with
"No response for request"; on transport failure every request in the flush
rejects with the transport error. -/
def processBatch (batch : List BatchReq) (transport : Except ErrObj (List BatchResp)) :
    List (BatchReq × Settlement) :=
  match transport with
  | .error e => batch.map (fun req => (req, .rejectedTransport e))
  | .ok responses =>
      batch.map (fun req =>
        match respMap responses req.id with
        | some response =>
            match response.error with
            | some err => (req, .rejectedError err.message)
            | none => (req, .resolved response.result)
        | none => (req, .rejectedError "No response for request"))

theorem find?_eq_some_of_nodup_ids (l : List BatchResp) (r : BatchResp) (i : Nat)
    (hr : r ∈ l) (hnd : (l.map BatchResp.id).Nodup) (hi : r.id = i) :
    l.find? (fun x => x.id == i) = some r := by
  induction l with
  | nil => simp at hr
  | cons a rest ih =>
      simp only [List.map_cons, List.nodup_cons] at hnd
      rcases List.mem_cons.mp hr with rfl | hr
      · rw [List.find?_cons_of_pos _ (by simp [hi])]
      · have hane : a.id ≠ i := by
          intro hai
          have hmem : r.id ∈ rest.map BatchResp.id := List.mem_map_of_mem BatchResp.id hr
          rw [hi, ← hai] at hmem
          exact hnd.1 hmem
        rw [List.find?_cons_of_neg _ (by simp [hane]), ih hr hnd.2]

theorem respMap_eq_of_nodup (responses : List BatchResp) (r : BatchResp)
    (hr : r ∈ responses) (hnd : (responses.map BatchResp.id).Nodup) :
    respMap responses r.id = some r := by
  unfold respMap
  have hnd' : ((responses.reverse).map BatchResp.id).Nodup := by
    rw [List.map_reverse]
    exact List.nodup_reverse.mpr hnd
  exact find?_eq_some_of_nodup_ids responses.reverse r r.id
    (List.mem_reverse.mpr hr) hnd' rfl

/-- A batchable read request with a given id. -/
def mkReq (i : Nat) : BatchReq where
  method := "eth_getBlockByNumber"
  params := []
  id := i

/-- Five buffered requests with ids 1..5. -/
def c7Batch : List BatchReq := [mkReq 1, mkReq 2, mkReq 3, mkReq 4, mkReq 5]

/-- Four successful responses with ids 1..4 (id 5 is missing). -/
def c7Responses : List BatchResp :=
  [{ id := 1, result := some "0xa", error := none },
   { id := 2, result := some "0xb", error := none },
   { id := 3, result := some "0xc", error := none },
   { id := 4, result := some "0xd", error := none }]

/-- C7: after a flush, a buffered request whose id matches a response resolves
with that response's result (or rejects with its error message); a request
whose id is absent from the response set rejects with "No response for
request"; a transport-level failure rejects every request in the flush with
the transport error; and on the concrete batch of 5 requests with 4 matching
response ids there are exactly 4 resolutions and exactly 1 no-response
rejection. -/
theorem processBatch_settlements (batch : List BatchReq) (responses : List BatchResp)
    (e : ErrObj) (req : BatchReq) (hreq : req ∈ batch) :
    ((∀ r ∈ responses, r.id ≠ req.id) →
        (req, Settlement.rejectedError "No response for request") ∈
          processBatch batch (.ok responses)) ∧
      (∀ r ∈ responses, (responses.map BatchResp.id).Nodup → r.id = req.id →
        (req, match r.error with
          | some err => Settlement.rejectedError err.message
          | none => Settlement.resolved r.result) ∈ processBatch batch (.ok responses)) ∧
      processBatch batch (.error e) =
        batch.map (fun q => (q, Settlement.rejectedTransport e)) ∧
      processBatch c7Batch (.ok c7Responses) =
        [(mkReq 1, .resolved (some "0xa")), (mkReq 2, .resolved (some "0xb")),
         (mkReq 3, .resolved (some "0xc")), (mkReq 4, .resolved (some "0xd")),
         (mkReq 5, .rejectedError "No response for request")] ∧
      (processBatch c7Batch (.ok c7Responses)).countP
          (fun p => p.2 == Settlement.rejectedError "No response for request") = 1 ∧
      (processBatch c7Batch (.ok c7Responses)).countP
          (fun p => match p.2 with | Settlement.resolved _ => true | _ => false) = 4 := by
  refine ⟨?_, ?_, rfl, by decide, by decide, by decide⟩
  · intro hno
    have hnone : respMap responses req.id = none := by
      unfold respMap
      rw [List.find?_eq_none]
      intro r hr
      simp [hno r (List.mem_reverse.mp hr)]
    simp only [processBatch]
    refine List.mem_map.mpr ⟨req, hreq, ?_⟩
    rw [hnone]
  · intro r hr hnd hid
    have hfind : respMap responses req.id = some r :=
      hid ▸ respMap_eq_of_nodup responses r hr hnd
    simp only [processBatch]
    refine List.mem_map.mpr ⟨req, hreq, ?_⟩
    rw [hfind]
    cases hr2 : r.error <;> simp [hr2]

/-- Concrete instantiation of the C7 theorem at request id 5 of the 5-request
batch with 4 matching responses. -/
theorem processBatch_settlements_witness :
    ((∀ r ∈ c7Responses, r.id ≠ (mkReq 5).id) →
        (mkReq 5, Settlement.rejectedError "No response for request") ∈
          processBatch c7Batch (.ok c7Responses)) ∧
      (∀ r ∈ c7Responses, (c7Responses.map BatchResp.id).Nodup → r.id = (mkReq 5).id →
        (mkReq 5, match r.error with
          | some err => Settlement.rejectedError err.message
          | none => Settlement.resolved r.result) ∈ processBatch c7Batch (.ok c7Responses)) ∧
      processBatch c7Batch (.error rateLimit429) =
        c7Batch.map (fun q => (q, Settlement.rejectedTransport rateLimit429)) ∧
      processBatch c7Batch (.ok c7Responses) =
        [(mkReq 1, .resolved (some "0xa")), (mkReq 2, .resolved (some "0xb")),
         (mkReq 3, .resolved (some "0xc")), (mkReq 4, .resolved (some "0xd")),
         (mkReq 5, .rejectedError "No response for request")] ∧
      (processBatch c7Batch (.ok c7Responses)).countP
          (fun p => p.2 == Settlement.rejectedError "No response for request") = 1 ∧
      (processBatch c7Batch (.ok c7Responses)).countP
          (fun p => match p.2 with | Settlement.resolved _ => true | _ => false) = 4 :=
  processBatch_settlements c7Batch c7Responses rateLimit429 (mkReq 5) (by decide)

/-! ## RoundIndexer (durable cache, BigInt string serialization, idempotence) -/

/-- The ASCII digit character for a decimal digit. -/
def digitChar (d : Nat) : Char := Char.ofNat (48 + d)

/-- The decimal digit denoted by an ASCII digit character. -/
def digitVal (c : Char) : Nat := c.toNat - 48

/-- Decimal digit string of a natural number (most significant first),
modelling `BigInt.prototype.toString`. -/
def natDigits (n : Nat) : List Char :=
  if n < 10 then [digitChar n]
  else natDigits (n / 10) ++ [digitChar (n % 10)]
decreasing_by exact Nat.div_lt_self (by omega) (by omega)

/-- Reading a decimal digit string back into a natural number. -/
def digitsToNat (cs : List Char) : Nat :=
  cs.foldl (fun acc c => 10 * acc + digitVal c) 0

/-- Model of `BigInt.prototype.toString` on a signed integer. -/
def intToDecimalString (n : Int) : String :=
  if n < 0 then "-" ++ String.mk (natDigits (-n).toNat)
  else String.mk (natDigits n.toNat)

/-- Model of the `BigInt(string)` conversion used when reading the durable
cache back. -/
def decimalStringToInt (s : String) : Int :=
  match s.data with
  | [] => 0
  | c :: rest =>
      if c = '-' then -(digitsToNat rest : Int) else (digitsToNat (c :: rest) : Int)

theorem digitVal_digitChar (d : Nat) (h : d < 10) : digitVal (digitChar d) = d := by
  interval_cases d <;> decide

theorem digitsToNat_append (cs : List Char) (c : Char) :
    digitsToNat (cs ++ [c]) = 10 * digitsToNat cs + digitVal c := by
  unfold digitsToNat
  rw [List.foldl_append]
  rfl

theorem digitsToNat_natDigits (n : Nat) : digitsToNat (natDigits n) = n := by
  induction n using Nat.strong_induction_on with
  | _ n ih =>
      rw [natDigits]
      split_ifs with h
      · unfold digitsToNat
        simp [digitVal_digitChar n h]
      · rw [digitsToNat_append, ih (n / 10) (Nat.div_lt_self (by omega) (by omega)),
          digitVal_digitChar (n % 10) (Nat.mod_lt n (by omega))]
        omega

theorem natDigits_shape (n : Nat) : ∃ d rest, natDigits n = digitChar d :: rest ∧ d < 10 := by
  induction n using Nat.strong_induction_on with
  | _ n ih =>
      rw [natDigits]
      split_ifs with h
      · exact ⟨n, [], rfl, h⟩
      · obtain ⟨d, rest, hd, hd10⟩ := ih (n / 10) (Nat.div_lt_self (by omega) (by omega))
        exact ⟨d, rest ++ [digitChar (n % 10)], by rw [hd]; rfl, hd10⟩

theorem digitChar_ne_minus (d : Nat) (h : d < 10) : digitChar d ≠ '-' := by
  interval_cases d <;> decide

/-- The decimal serialization of an integer parses back to the integer. -/
theorem decimalStringToInt_intToDecimalString (n : Int) :
    decimalStringToInt (intToDecimalString n) = n := by
  unfold intToDecimalString decimalStringToInt
  split_ifs with h
  · rw [show ("-" ++ String.mk (natDigits (-n).toNat)).data =
        '-' :: natDigits (-n).toNat from rfl]
    show (if ('-' : Char) = '-' then -(digitsToNat (natDigits (-n).toNat) : Int)
      else (digitsToNat ('-' :: natDigits (-n).toNat) : Int)) = n
    rw [if_pos rfl, digitsToNat_natDigits]
    omega
  · obtain ⟨d, rest, hd, hd10⟩ := natDigits_shape n.toNat
    rw [show (String.mk (natDigits n.toNat)).data = natDigits n.toNat from rfl, hd]
    show (if digitChar d = '-' then -(digitsToNat rest : Int)
      else (digitsToNat (digitChar d :: rest) : Int)) = n
    rw [if_neg (digitChar_ne_minus d hd10), ← hd, digitsToNat_natDigits]
    omega

/-- A boosted transaction as held in memory (`BigInt` fields as `Int`). -/
structure TimeboostedTransaction where
  hash : String
  blockNumber : Nat
  timestamp : Nat
  «from» : String
  «to» : String
  value : Int
  gasUsed : Int
  effectiveGasPrice : Int
  timeboosted : Bool
deriving DecidableEq, Repr

/-- A boosted transaction as written to the durable cache file (`BigInt`
fields serialized to decimal strings). -/
structure SerializedTransaction where
  hash : String
  blockNumber : Nat
  timestamp : Nat
  «from» : String
  «to» : String
  value : String
  gasUsed : String
  effectiveGasPrice : String
  timeboosted : Bool
deriving DecidableEq, Repr

/-- Serialization step of `cacheRound`: `value`, `gasUsed` and
`effectiveGasPrice` become strings, everything else is spread through. -/
def serializeTx (tx : TimeboostedTransaction) : SerializedTransaction where
  hash := tx.hash
  blockNumber := tx.blockNumber
  timestamp := tx.timestamp
  «from» := tx.«from»
  «to» := tx.«to»
  value := intToDecimalString tx.value
  gasUsed := intToDecimalString tx.gasUsed
  effectiveGasPrice := intToDecimalString tx.effectiveGasPrice
  timeboosted := tx.timeboosted

/-- Deserialization step of `getCachedRound`: convert the string fields back
with `BigInt(...)`, spread the rest. -/
def deserializeTx (tx : SerializedTransaction) : TimeboostedTransaction where
  hash := tx.hash
  blockNumber := tx.blockNumber
  timestamp := tx.timestamp
  «from» := tx.«from»
  «to» := tx.«to»
  value := decimalStringToInt tx.value
  gasUsed := decimalStringToInt tx.gasUsed
  effectiveGasPrice := decimalStringToInt tx.effectiveGasPrice
  timeboosted := tx.timeboosted

/-- An `IndexedRound` as returned to callers. -/
structure IndexedRound where
  round : String
  startTimestamp : Nat
  endTimestamp : Nat
  transactions : List TimeboostedTransaction
  indexedAt : Nat
  startBlock : Option Nat
  endBlock : Option Nat
deriving DecidableEq, Repr

/-- An `IndexedRound` as stored in the durable cache file. -/
structure SerializedRound where
  round : String
  startTimestamp : Nat
  endTimestamp : Nat
  transactions : List SerializedTransaction
  indexedAt : Nat
  startBlock : Option Nat
  endBlock : Option Nat
deriving DecidableEq, Repr

/-- Model of the serialization in `RoundIndexer.cacheRound`. -/
def serializeRound (r : IndexedRound) : SerializedRound where
  round := r.round
  startTimestamp := r.startTimestamp
  endTimestamp := r.endTimestamp
  transactions := r.transactions.map serializeTx
  indexedAt := r.indexedAt
  startBlock := r.startBlock
  endBlock := r.endBlock

/-- Model of the parsing in `RoundIndexer.getCachedRound`. -/
def deserializeRound (r : SerializedRound) : IndexedRound where
  round := r.round
  startTimestamp := r.startTimestamp
  endTimestamp := r.endTimestamp
  transactions := r.transactions.map deserializeTx
  indexedAt := r.indexedAt
  startBlock := r.startBlock
  endBlock := r.endBlock

theorem deserializeTx_serializeTx (tx : TimeboostedTransaction) :
    deserializeTx (serializeTx tx) = tx := by
  unfold deserializeTx serializeTx
  simp [decimalStringToInt_intToDecimalString]

theorem deserializeRound_serializeRound (r : IndexedRound) :
    deserializeRound (serializeRound r) = r := by
  unfold deserializeRound serializeRound
  simp only [List.map_map]
  have : (deserializeTx ∘ serializeTx) = id := by
    funext tx
    exact deserializeTx_serializeTx tx
  simp [this]

/-- Lookup after an insertion at the same key. -/
theorem mapLookup_mapSet_self {κ β : Type} [DecidableEq κ]
    (l : List (κ × β)) (k : κ) (v : β) : mapLookup (mapSet l k v) k = some v := by
  induction l with
  | nil => simp [mapSet, mapLookup, List.find?]
  | cons p rest ih =>
      simp only [mapSet]
      split_ifs with hp
      · simp [mapLookup, List.find?]
      · have hstep : mapLookup (p :: mapSet rest k v) k = mapLookup (mapSet rest k v) k := by
          unfold mapLookup
          rw [List.find?_cons_of_neg _ (by simp [hp])]
        rw [hstep]
        exact ih

/-- Phases of a round in the state machine. -/
inductive RoundPhase where
  | pending
  | indexing
  | completed
  | error
deriving DecidableEq, Repr

/-- An entry of the `roundStatus` map. -/
structure RoundIndexStatus where
  round : String
  status : RoundPhase
  transactionCount : Nat
  lastIndexed : Option Nat
  error : Option String
deriving DecidableEq, Repr

/-- The mutable state of a `RoundIndexer`: the durable per-round cache files
and the in-memory status map. -/
structure RoundIndexerState where
  files : List (String × SerializedRound)
  roundStatus : List (String × RoundIndexStatus)
deriving DecidableEq, Repr

/-- Model of `RoundIndexer.getCachedRound`: read the round's cache file if it
exists and parse it (converting the string fields back to `BigInt`). -/
def getCachedRound (s : RoundIndexerState) (round : String) : Option IndexedRound :=
  (mapLookup s.files round).map deserializeRound

/-- Model of `RoundIndexer.cacheRound`: serialize and write the round's cache
file. -/
def cacheRound (s : RoundIndexerState) (round : String) (data : IndexedRound) :
    RoundIndexerState :=
  { s with files := mapSet s.files round (serializeRound data) }

/-- What one successful remote indexing pass would produce for a round: the
resolved block range, the boosted transactions found in it, and the number of
remote chain reads performed to get them. -/
structure FetchResult where
  startBlock : Nat
  endBlock : Nat
  transactions : List TimeboostedTransaction
  remoteReads : Nat

/-- Model of `RoundIndexer.indexRound` (with the queue/wait machinery of the
single-drain worker collapsed into direct sequencing, and the remote work
represented by the `fetch` oracle).  If a durable cached `IndexedRound`
exists, it is returned immediately with the status set to `completed` and no
remote reads.  Otherwise the round is indexed: the freshly built
`IndexedRound` is serialized to the durable cache, the status becomes
`completed`, and — exactly as in the source, where the waiting promise
resolves with `getCachedRound` — the caller receives the round as read back
from the cache.  Returns (result, new state, remote reads issued). -/
def indexRound (s : RoundIndexerState) (roundKey : String)
    (startTimestamp endTimestamp : Nat) (fetch : FetchResult) (now : Nat) :
    IndexedRound × RoundIndexerState × Nat :=
  match getCachedRound s roundKey with
  | some cached =>
      (cached,
       { s with
         roundStatus := mapSet s.roundStatus roundKey
           { round := roundKey, status := .completed,
             transactionCount := cached.transactions.length,
             lastIndexed := some cached.indexedAt, error := none } },
       0)
  | none =>
      let indexedRound : IndexedRound :=
        { round := roundKey, startTimestamp := startTimestamp,
          endTimestamp := endTimestamp, transactions := fetch.transactions,
          indexedAt := now, startBlock := some fetch.startBlock,
          endBlock := some fetch.endBlock }
      let s1 := cacheRound s roundKey indexedRound
      let s2 : RoundIndexerState :=
        { s1 with
          roundStatus := mapSet s1.roundStatus roundKey
            { round := roundKey, status := .completed,
              transactionCount := fetch.transactions.length,
              lastIndexed := some now, error := none } }
      (deserializeRound (serializeRound indexedRound), s2, fetch.remoteReads)

/-- C3: when a round is indexed for the first time (no durable cache file)
and then requested again, the second `indexRound` returns an `IndexedRound`
equal to the first result — the `BigInt` fields having round-tripped through
string serialization — issues 0 remote reads, and sets the round's status to
`completed`; moreover the first result itself equals the freshly built round
(the round-trip is lossless). -/
theorem indexRound_idempotent (s0 : RoundIndexerState) (roundKey : String)
    (startTimestamp endTimestamp : Nat) (fetch fetchSecond : FetchResult)
    (now nowSecond : Nat) (hmiss : mapLookup s0.files roundKey = none) :
    (indexRound (indexRound s0 roundKey startTimestamp endTimestamp fetch now).2.1
        roundKey startTimestamp endTimestamp fetchSecond nowSecond).1 =
      (indexRound s0 roundKey startTimestamp endTimestamp fetch now).1 ∧
      (indexRound (indexRound s0 roundKey startTimestamp endTimestamp fetch now).2.1
        roundKey startTimestamp endTimestamp fetchSecond nowSecond).2.2 = 0 ∧
      (mapLookup
        (indexRound (indexRound s0 roundKey startTimestamp endTimestamp fetch now).2.1
          roundKey startTimestamp endTimestamp fetchSecond nowSecond).2.1.roundStatus
        roundKey).map RoundIndexStatus.status = some RoundPhase.completed ∧
      (indexRound s0 roundKey startTimestamp endTimestamp fetch now).1 =
        { round := roundKey, startTimestamp := startTimestamp,
          endTimestamp := endTimestamp, transactions := fetch.transactions,
          indexedAt := now, startBlock := some fetch.startBlock,
          endBlock := some fetch.endBlock } := by
  have hcached0 : getCachedRound s0 roundKey = none := by
    unfold getCachedRound
    rw [hmiss]
    rfl
  set r0 : IndexedRound :=
    { round := roundKey, startTimestamp := startTimestamp,
      endTimestamp := endTimestamp, transactions := fetch.transactions,
      indexedAt := now, startBlock := some fetch.startBlock,
      endBlock := some fetch.endBlock } with hr0
  have hfirst : indexRound s0 roundKey startTimestamp endTimestamp fetch now =
      (deserializeRound (serializeRound r0),
       { files := mapSet s0.files roundKey (serializeRound r0),
         roundStatus := mapSet s0.roundStatus roundKey
           { round := roundKey, status := .completed,
             transactionCount := fetch.transactions.length,
             lastIndexed := some now, error := none } },
       fetch.remoteReads) := by
    unfold indexRound
    rw [hcached0]
    rfl
  have hlookup1 : getCachedRound
      (indexRound s0 roundKey startTimestamp endTimestamp fetch now).2.1 roundKey =
      some (deserializeRound (serializeRound r0)) := by
    rw [hfirst]
    unfold getCachedRound
    rw [mapLookup_mapSet_self]
    rfl
  have hsecond : indexRound
      (indexRound s0 roundKey startTimestamp endTimestamp fetch now).2.1
      roundKey startTimestamp endTimestamp fetchSecond nowSecond =
      (deserializeRound (serializeRound r0),
       { (indexRound s0 roundKey startTimestamp endTimestamp fetch now).2.1 with
         roundStatus := mapSet
           (indexRound s0 roundKey startTimestamp endTimestamp fetch now).2.1.roundStatus
           roundKey
           { round := roundKey, status := .completed,
             transactionCount := (deserializeRound (serializeRound r0)).transactions.length,
             lastIndexed := some (deserializeRound (serializeRound r0)).indexedAt,
             error := none } },
       0) := by
    revert hlookup1
    generalize (indexRound s0 roundKey startTimestamp endTimestamp fetch now).2.1 = st
    intro hlookup1
    unfold indexRound
    rw [hlookup1]
  refine ⟨?_, ?_, ?_, ?_⟩
  · rw [hsecond, hfirst]
  · rw [hsecond]
  · rw [hsecond]
    simp [mapLookup_mapSet_self]
  · rw [hfirst, deserializeRound_serializeRound]

/-- A sample boosted transaction with `BigInt` fields. -/
def c3Tx : TimeboostedTransaction where
  hash := "0xabc"
  blockNumber := 101
  timestamp := 1001
  «from» := "0xme"
  «to» := "0xyou"
  value := 12345
  gasUsed := 21000
  effectiveGasPrice := 1000000007
  timeboosted := true

/-- The remote indexing outcome of the first call (7 chain reads). -/
def c3Fetch : FetchResult where
  startBlock := 101
  endBlock := 200
  transactions := [c3Tx]
  remoteReads := 7

/-- A would-be remote outcome for the second call (never consulted). -/
def c3FetchSecond : FetchResult where
  startBlock := 0
  endBlock := 0
  transactions := []
  remoteReads := 3

/-- Concrete instantiation of the C3 theorem: a fresh state, one transaction
with `BigInt` fields, two consecutive `indexRound` calls. -/
theorem indexRound_idempotent_witness :
    (indexRound (indexRound ⟨[], []⟩ "42" 1000 2000 c3Fetch 5555).2.1
        "42" 1000 2000 c3FetchSecond 6666).1 =
      (indexRound ⟨[], []⟩ "42" 1000 2000 c3Fetch 5555).1 ∧
      (indexRound (indexRound ⟨[], []⟩ "42" 1000 2000 c3Fetch 5555).2.1
        "42" 1000 2000 c3FetchSecond 6666).2.2 = 0 ∧
      (mapLookup
        (indexRound (indexRound ⟨[], []⟩ "42" 1000 2000 c3Fetch 5555).2.1
          "42" 1000 2000 c3FetchSecond 6666).2.1.roundStatus
        "42").map RoundIndexStatus.status = some RoundPhase.completed ∧
      (indexRound ⟨[], []⟩ "42" 1000 2000 c3Fetch 5555).1 =
        { round := "42", startTimestamp := 1000, endTimestamp := 2000,
          transactions := c3Fetch.transactions, indexedAt := 5555,
          startBlock := some c3Fetch.startBlock,
          endBlock := some c3Fetch.endBlock } :=
  indexRound_idempotent ⟨[], []⟩ "42" 1000 2000 c3Fetch c3FetchSecond 5555 6666 rfl

/-! ## TransactionIndexer.getTimeboostedTransactions (ordering guarantee) -/

/-- A raw chain transaction together with its receipt data, as consumed by
`processBlock` (the `timeboosted` flag is the explicit receipt marker). -/
structure RawTx where
  hash : String
  «from» : String
  «to» : Option String
  value : Int
  gasUsed : Int
  effectiveGasPrice : Int
  timeboosted : Bool
deriving DecidableEq, Repr

/-- A chain block: its number, timestamp and transactions. -/
structure BlockData where
  number : Nat
  timestamp : Nat
  transactions : List RawTx
deriving DecidableEq, Repr

/-- Model of `processBlock`: keep the transactions whose receipt carries the
boosted marker, in discovery order, stamped with the block's number and
timestamp. -/
def processBlock (b : BlockData) : List TimeboostedTransaction :=
  (b.transactions.filter (fun tx => tx.timeboosted)).map (fun tx =>
    { hash := tx.hash, blockNumber := b.number, timestamp := b.timestamp,
      «from» := tx.«from», «to» := tx.«to».getD "", value := tx.value,
      gasUsed := tx.gasUsed, effectiveGasPrice := tx.effectiveGasPrice,
      timeboosted := true })

/-- Model of `getTimeboostedTransactions`: collect the boosted transactions
of every block in `[fromBlock, toBlock]` and return them sorted by ascending
block number (`txs.sort((a, b) => a.blockNumber - b.blockNumber)`). -/
def getTimeboostedTransactions (chain : Nat → BlockData) (fromBlock toBlock : Nat) :
    List TimeboostedTransaction :=
  let collected := (List.range' fromBlock (toBlock + 1 - fromBlock)).flatMap
    (fun n => processBlock (chain n))
  collected.mergeSort (fun a b => decide (a.blockNumber ≤ b.blockNumber))

/-- C8: for every chain and block range, the transaction list returned by
`getTimeboostedTransactions` is sorted by ascending block number, and the
`transactions` field of an `IndexedRound` produced from that list by a
(cache-miss) `indexRound` is that same list — hence also sorted. -/
theorem getTimeboostedTransactions_sorted (chain : Nat → BlockData)
    (fromBlock toBlock : Nat) (s0 : RoundIndexerState) (roundKey : String)
    (startTimestamp endTimestamp sb eb rr now : Nat)
    (hmiss : mapLookup s0.files roundKey = none) :
    (getTimeboostedTransactions chain fromBlock toBlock).Pairwise
        (fun a b => a.blockNumber ≤ b.blockNumber) ∧
      ((indexRound s0 roundKey startTimestamp endTimestamp
          ⟨sb, eb, getTimeboostedTransactions chain fromBlock toBlock, rr⟩ now).1).transactions =
        getTimeboostedTransactions chain fromBlock toBlock ∧
      ((indexRound s0 roundKey startTimestamp endTimestamp
          ⟨sb, eb, getTimeboostedTransactions chain fromBlock toBlock, rr⟩ now).1).transactions.Pairwise
        (fun a b => a.blockNumber ≤ b.blockNumber) := by
  have hsorted : (getTimeboostedTransactions chain fromBlock toBlock).Pairwise
      (fun a b => a.blockNumber ≤ b.blockNumber) := by
    unfold getTimeboostedTransactions
    have hs := @List.sorted_mergeSort TimeboostedTransaction
      (fun a b => decide (a.blockNumber ≤ b.blockNumber))
      (fun a b c hab hbc => by
        simp only [decide_eq_true_eq] at *
        omega)
      (fun a b => by
        simp only [Bool.or_eq_true, decide_eq_true_eq]
        omega)
      ((List.range' fromBlock (toBlock + 1 - fromBlock)).flatMap
        (fun n => processBlock (chain n)))
    exact hs.imp (fun h => by simpa using h)
  have htx : ((indexRound s0 roundKey startTimestamp endTimestamp
      ⟨sb, eb, getTimeboostedTransactions chain fromBlock toBlock, rr⟩ now).1).transactions =
      getTimeboostedTransactions chain fromBlock toBlock := by
    have hcached0 : getCachedRound s0 roundKey = none := by
      unfold getCachedRound
      rw [hmiss]
      rfl
    unfold indexRound
    rw [hcached0]
    show (deserializeRound (serializeRound _)).transactions = _
    rw [deserializeRound_serializeRound]
  refine ⟨hsorted, htx, ?_⟩
  rw [htx]
  exact hsorted

/-- A raw boosted transaction for the C8 instantiation. -/
def c8Raw (h : String) : RawTx where
  hash := h
  «from» := "0xme"
  «to» := some "0xyou"
  value := 1
  gasUsed := 21000
  effectiveGasPrice := 7
  timeboosted := true

/-- A synthetic chain: blocks 150 and 170 carry boosted transactions (two and
one respectively), every other block is empty. -/
def c8Chain (n : Nat) : BlockData where
  number := n
  timestamp := 10 * n
  transactions :=
    if n = 150 then [c8Raw "0xa", c8Raw "0xb"]
    else if n = 170 then [c8Raw "0xc"]
    else []

/-- Concrete instantiation of the C8 theorem on a two-block chain with three
boosted transactions. -/
theorem getTimeboostedTransactions_sorted_witness :
    (getTimeboostedTransactions c8Chain 101 200).Pairwise
        (fun a b => a.blockNumber ≤ b.blockNumber) ∧
      ((indexRound ⟨[], []⟩ "7" 1000 2000
          ⟨101, 200, getTimeboostedTransactions c8Chain 101 200, 9⟩ 5555).1).transactions =
        getTimeboostedTransactions c8Chain 101 200 ∧
      ((indexRound ⟨[], []⟩ "7" 1000 2000
          ⟨101, 200, getTimeboostedTransactions c8Chain 101 200, 9⟩ 5555).1).transactions.Pairwise
        (fun a b => a.blockNumber ≤ b.blockNumber) :=
  getTimeboostedTransactions_sorted c8Chain 101 200 ⟨[], []⟩ "7" 1000 2000 101 200 9 5555 rfl

/-! ## TransactionIndexer.findBlockByTimestamp (binary search) -/

/-- Which side the caller wants when no block matches the timestamp
exactly. -/
inductive SearchPosition where
  | before
  | after
deriving DecidableEq, Repr

/-- Outcome of the binary-search loop: an exact timestamp match, or the
collapsed interval `(low, high)` with `low = high + 1` once the loop exits.
Block numbers are JavaScript numbers, modelled as `Int`. -/
inductive SearchOutcome where
  | exact (block : Int)
  | collapsed (low high : Int)
deriving DecidableEq, Repr

/-- The `while (low <= high)` loop of `findBlockByTimestamp`, with
`mid = Math.floor((low + high) / 2)` (`Int` division by 2 is floor division);
the chain is modelled as a total function `ts` from block number to
timestamp (a transiently unavailable block would make the source loop retry
the same probe, so totality is the eventual behaviour). -/
def bsearch (ts : Int → Nat) (target : Nat) (low high : Int) : SearchOutcome :=
  if low ≤ high then
    if ts ((low + high) / 2) = target then .exact ((low + high) / 2)
    else if ts ((low + high) / 2) < target then bsearch ts target ((low + high) / 2 + 1) high
    else bsearch ts target low ((low + high) / 2 - 1)
  else .collapsed low high
termination_by (high + 1 - low).toNat
decreasing_by
  · omega
  · omega

/-- Model of `findBlockByTimestamp`: binary search over `[1, latest]`; on an
exact match return it, otherwise return `high` for position `'before'` and
`low` for `'after'`. -/
def findBlockByTimestamp (ts : Int → Nat) (latest : Int) (target : Nat)
    (position : SearchPosition) : Int :=
  match bsearch ts target 1 latest with
  | .exact b => b
  | .collapsed low high =>
      match position with
      | .before => high
      | .after => low

/-- Loop invariant of the binary search: everything strictly below `low` is
below the target, everything strictly above `high` is above it; on exit the
interval has collapsed to `low = high + 1` with the invariants still
holding, and an exact hit lies inside the interval. -/
theorem bsearch_invariant (ts : Int → Nat) (target : Nat) (latest : Int)
    (hmono : ∀ b : Int, b ≤ latest → ∀ a : Int, a < b → 1 ≤ a → ts a < ts b)
    (low high : Int) (hlow : 1 ≤ low) (hhigh : high ≤ latest)
    (hlh : low ≤ high + 1)
    (hbelow : ∀ b : Int, 1 ≤ b → b < low → ts b < target)
    (habove : ∀ b : Int, high < b → b ≤ latest → target < ts b) :
    (∀ m, bsearch ts target low high = .exact m →
      ts m = target ∧ low ≤ m ∧ m ≤ high) ∧
    (∀ lo hi, bsearch ts target low high = .collapsed lo hi →
      lo = hi + 1 ∧ low ≤ lo ∧ hi ≤ high ∧
      (∀ b : Int, 1 ≤ b → b < lo → ts b < target) ∧
      (∀ b : Int, hi < b → b ≤ latest → target < ts b)) := by
  rw [bsearch.eq_def]
  by_cases hle : low ≤ high
  · rw [if_pos hle]
    by_cases heq : ts ((low + high) / 2) = target
    · rw [if_pos heq]
      constructor
      · intro m hm
        simp only [SearchOutcome.exact.injEq] at hm
        subst hm
        exact ⟨heq, by omega, by omega⟩
      · intro lo hi h
        simp at h
    · rw [if_neg heq]
      by_cases hlt : ts ((low + high) / 2) < target
      · rw [if_pos hlt]
        have hnext : ∀ b : Int, 1 ≤ b → b < (low + high) / 2 + 1 → ts b < target := by
          intro b hb1 hb2
          rcases lt_or_ge b ((low + high) / 2) with hb | hb
          · rcases lt_or_ge b low with hbl | hbl
            · exact hbelow b hb1 hbl
            · exact lt_trans (hmono ((low + high) / 2) (by omega) b hb hb1) hlt
          · have hbm : b = (low + high) / 2 := by omega
            rw [hbm]
            exact hlt
        obtain ⟨hex, hcol⟩ := bsearch_invariant ts target latest hmono
          ((low + high) / 2 + 1) high (by omega) hhigh (by omega) hnext habove
        constructor
        · intro m hm
          obtain ⟨h1, h2, h3⟩ := hex m hm
          exact ⟨h1, by omega, h3⟩
        · intro lo hi h
          obtain ⟨h1, h2, h3, h4, h5⟩ := hcol lo hi h
          exact ⟨h1, by omega, h3, h4, h5⟩
      · rw [if_neg hlt]
        have hmid : target < ts ((low + high) / 2) := by omega
        have hnext : ∀ b : Int, (low + high) / 2 - 1 < b → b ≤ latest → target < ts b := by
          intro b hb1 hb2
          rcases lt_or_ge ((low + high) / 2) b with hb | hb
          · exact lt_trans hmid (hmono b hb2 ((low + high) / 2) hb (by omega))
          · have hbm : b = (low + high) / 2 := by omega
            rw [hbm]
            exact hmid
        obtain ⟨hex, hcol⟩ := bsearch_invariant ts target latest hmono
          low ((low + high) / 2 - 1) hlow (by omega) (by omega) hbelow hnext
        constructor
        · intro m hm
          obtain ⟨h1, h2, h3⟩ := hex m hm
          exact ⟨h1, h2, by omega⟩
        · intro lo hi h
          obtain ⟨h1, h2, h3, h4, h5⟩ := hcol lo hi h
          exact ⟨h1, h2, by omega, h4, h5⟩
  · rw [if_neg hle]
    constructor
    · intro m hm
      simp at hm
    · intro lo hi h
      simp only [SearchOutcome.collapsed.injEq] at h
      obtain ⟨rfl, rfl⟩ := h
      exact ⟨by omega, le_refl _, by omega, hbelow, habove⟩
termination_by (high + 1 - low).toNat
decreasing_by
  · omega
  · omega

/-- C4: over a chain whose timestamps are (strictly) monotonically increasing
on `[1, latest]`, `findBlockByTimestamp target 'after'` returns the smallest
block in `[1, latest]` with timestamp ≥ target whenever such a block exists
(`target ≤ ts latest`), and `'before'` returns the largest block with
timestamp ≤ target whenever one exists (`ts 1 ≤ target`); for a target below
the first block's timestamp the `'after'` search returns block 1, and for a
target above the last block's timestamp the search interval collapses at the
boundary: `'after'` returns `latest + 1` (one past the last block, i.e. no
valid block) and `'before'` returns the boundary block `latest`. -/
theorem findBlockByTimestamp_resolves (ts : Int → Nat) (latest : Int) (target : Nat)
    (hmono : ∀ b : Int, b ≤ latest → ∀ a : Int, a < b → 1 ≤ a → ts a < ts b)
    (hlatest : 1 ≤ latest) :
    (target ≤ ts latest →
      1 ≤ findBlockByTimestamp ts latest target .after ∧
      findBlockByTimestamp ts latest target .after ≤ latest ∧
      target ≤ ts (findBlockByTimestamp ts latest target .after) ∧
      (∀ b : Int, 1 ≤ b → b < findBlockByTimestamp ts latest target .after →
        ts b < target)) ∧
    (ts 1 ≤ target →
      1 ≤ findBlockByTimestamp ts latest target .before ∧
      findBlockByTimestamp ts latest target .before ≤ latest ∧
      ts (findBlockByTimestamp ts latest target .before) ≤ target ∧
      (∀ b : Int, findBlockByTimestamp ts latest target .before < b → b ≤ latest →
        target < ts b)) ∧
    (target < ts 1 → findBlockByTimestamp ts latest target .after = 1) ∧
    (ts latest < target →
      findBlockByTimestamp ts latest target .after = latest + 1 ∧
      findBlockByTimestamp ts latest target .before = latest) := by
  have hmain := bsearch_invariant ts target latest hmono 1 latest
    (le_refl 1) (le_refl latest) (by omega)
    (fun b hb1 hb2 => by omega)
    (fun b hb1 hb2 => by omega)
  cases hbs : bsearch ts target 1 latest with
  | exact m =>
      obtain ⟨hts, hm1, hm2⟩ := hmain.1 m hbs
      have hfa : findBlockByTimestamp ts latest target .after = m := by
        unfold findBlockByTimestamp
        rw [hbs]
      have hfb : findBlockByTimestamp ts latest target .before = m := by
        unfold findBlockByTimestamp
        rw [hbs]
      refine ⟨?_, ?_, ?_, ?_⟩
      · intro _
        rw [hfa]
        refine ⟨hm1, hm2, le_of_eq hts.symm, ?_⟩
        intro b hb1 hb2
        exact hts ▸ hmono m hm2 b hb2 hb1
      · intro _
        rw [hfb]
        refine ⟨hm1, hm2, le_of_eq hts, ?_⟩
        intro b hb1 hb2
        exact hts ▸ hmono b hb2 m hb1 hm1
      · intro h1
        exfalso
        rcases lt_or_ge 1 m with hm | hm
        · exact absurd (hts ▸ hmono m hm2 1 hm (le_refl 1)) (by omega)
        · have hm' : m = 1 := by omega
          rw [hm'] at hts
          omega
      · intro hL
        exfalso
        rcases lt_or_ge m latest with hm | hm
        · exact absurd (hts ▸ hmono latest (le_refl latest) m hm hm1) (by omega)
        · have hm' : m = latest := by omega
          rw [hm'] at hts
          omega
  | collapsed lo hi =>
      obtain ⟨hlohi, hlo1, hhil, hblo, hbhi⟩ := hmain.2 lo hi hbs
      have hfa : findBlockByTimestamp ts latest target .after = lo := by
        unfold findBlockByTimestamp
        rw [hbs]
      have hfb : findBlockByTimestamp ts latest target .before = hi := by
        unfold findBlockByTimestamp
        rw [hbs]
      refine ⟨?_, ?_, ?_, ?_⟩
      · intro htarget
        have hlole : lo ≤ latest := by
          by_contra hcon
          have hLlt : ts latest < target := hblo latest hlatest (by omega)
          omega
        rw [hfa]
        exact ⟨hlo1, hlole, le_of_lt (hbhi lo (by omega) hlole), hblo⟩
      · intro htarget
        have hhi1 : 1 ≤ hi := by
          by_contra hcon
          have h1lt : target < ts 1 := hbhi 1 (by omega) hlatest
          omega
        rw [hfb]
        exact ⟨hhi1, hhil, le_of_lt (hblo hi hhi1 (by omega)), hbhi⟩
      · intro h1
        rw [hfa]
        by_contra hcon
        have h1lt : ts 1 < target := hblo 1 (le_refl 1) (by omega)
        omega
      · intro hL
        have hhiL : hi = latest := by
          by_contra hcon
          have hLlt : target < ts latest := hbhi latest (by omega) (le_refl latest)
          omega
        rw [hfa, hfb]
        omega

/-- The synthetic chain for the C4 instantiation: block `b` has timestamp
`10 * b`. -/
def c4Chain (b : Int) : Nat := (10 * b).toNat

/-- Concrete instantiation of the C4 theorem on the chain `ts b = 10 * b`
with 5 blocks and target 25: `'after'` resolves to block 3, `'before'` to
block 2. -/
theorem findBlockByTimestamp_resolves_witness :
    (25 ≤ c4Chain 5 →
      1 ≤ findBlockByTimestamp c4Chain 5 25 .after ∧
      findBlockByTimestamp c4Chain 5 25 .after ≤ 5 ∧
      25 ≤ c4Chain (findBlockByTimestamp c4Chain 5 25 .after) ∧
      (∀ b : Int, 1 ≤ b → b < findBlockByTimestamp c4Chain 5 25 .after →
        c4Chain b < 25)) ∧
    (c4Chain 1 ≤ 25 →
      1 ≤ findBlockByTimestamp c4Chain 5 25 .before ∧
      findBlockByTimestamp c4Chain 5 25 .before ≤ 5 ∧
      c4Chain (findBlockByTimestamp c4Chain 5 25 .before) ≤ 25 ∧
      (∀ b : Int, findBlockByTimestamp c4Chain 5 25 .before < b → b ≤ 5 →
        25 < c4Chain b)) ∧
    (25 < c4Chain 1 → findBlockByTimestamp c4Chain 5 25 .after = 1) ∧
    (c4Chain 5 < 25 →
      findBlockByTimestamp c4Chain 5 25 .after = 5 + 1 ∧
      findBlockByTimestamp c4Chain 5 25 .before = 5) :=
  findBlockByTimestamp_resolves c4Chain 5 25
    (by
      intro b hb a ha ha1
      unfold c4Chain
      omega)
    (by omega)

end Spec2Proof

